import Mathlib

/-!
Shallow embedding of `uploadtos3.py` (an S3 uploader CLI).

The storage SDK (`boto3`/`botocore`) is external: each SDK call is modelled
by an oracle (`S3Responses`) saying, for each call the code can make, whether
the service answers normally or raises a `ClientError`.  The observable
behaviour of each embedded function is its boolean result together with the
ordered trace of service calls it issued (`S3Call`), mirroring exactly the
calls the Python code makes and the order it makes them in.

File contents are modelled as `List Nat` (a byte string); only lengths and
chunk boundaries matter to the code.  Python float arithmetic in
`format_file_size` (repeated true division by 1024) is modelled over `ℚ`:
division by the power of two 1024 is exact in binary floating point for all
realistic sizes, so the rational model agrees with the float code there.
-/

/-- A `botocore.exceptions.ClientError`, identified by its message. -/
def ClientError := String

deriving instance DecidableEq, Repr for ClientError

/-- One service call issued by the uploader, as recorded in a trace.
`uploadPart` records the `PartNumber` sent; `completeMultipartUpload`
records the part list sent as `(ETag, PartNumber)` pairs;
`abortMultipartUpload` records the `UploadId` it references. -/
inductive S3Call : Type where
  | putObject : S3Call
  | createMultipartUpload : S3Call
  | uploadPart (partNumber : Nat) : S3Call
  | completeMultipartUpload (parts : List (String × Nat)) : S3Call
  | abortMultipartUpload (uploadId : String) : S3Call
  deriving DecidableEq, Repr

/-- Oracle for the storage service: the outcome of each call the code can
make.  `partResult` is indexed by the part number being uploaded. -/
structure S3Responses : Type where
  putResult : Except ClientError Unit
  createResult : Except ClientError String
  partResult : Nat → Except ClientError String
  completeResult : List (String × Nat) → Except ClientError Unit
  abortResult : Except ClientError Unit

/-- Embedding of `upload_file_simple`: one `put_object`; `ClientError` is
caught and converted to `False` (the Python returns a boolean result, it
does not raise). -/
def upload_file_simple (svc : S3Responses) : Bool × List S3Call :=
  match svc.putResult with
  | .ok _ => (true, [S3Call.putObject])
  | .error _ => (false, [S3Call.putObject])

/-- The constant `chunk_size = 50 * 1024 * 1024` from
`upload_file_multipart`. -/
def chunk_size : Nat := 50 * 1024 * 1024

/-- The reads of the chunk loop: `file.read(C)` yields successive blocks of at
most `C` bytes until the file is exhausted (`read` of an empty file, or
`read(0)`, yields the empty bytes object, which breaks the loop). -/
def readChunks (C : Nat) (data : List Nat) : List (List Nat) :=
  if h : C = 0 ∨ data = [] then []
  else
    have : data.length - C < data.length := by
      rcases not_or.mp h with ⟨hC, hd⟩
      have hlen : 0 < data.length := List.length_pos.mpr hd
      have hC0 : 0 < C := Nat.pos_of_ne_zero hC
      omega
    data.take C :: readChunks C (data.drop C)
  termination_by data.length
  decreasing_by simpa using this

/-- The part-upload loop of `upload_file_multipart`: upload each chunk in
turn with incrementing part number, collecting `(ETag, PartNumber)` pairs
and the trace of `upload_part` calls; stop at the first `ClientError`
(third component `false`). -/
def uploadPartsLoop (svc : S3Responses) :
    List (List Nat) → Nat → List (String × Nat) × List S3Call × Bool
  | [], _ => ([], [], true)
  | _chunk :: rest, n =>
    match svc.partResult n with
    | .error _ => ([], [S3Call.uploadPart n], false)
    | .ok etag =>
      let r := uploadPartsLoop svc rest (n + 1)
      ((etag, n) :: r.1, S3Call.uploadPart n :: r.2.1, r.2.2)

/-- Embedding of `upload_file_multipart`: initiate, upload chunks,
complete; on a
`ClientError` anywhere, log and attempt `abort_multipart_upload` with the
`upload_id` local, swallowing any failure of the abort itself, then return
`False`.  When initiation itself raised, `upload_id` was never assigned, so
evaluating the arguments of the abort call raises `UnboundLocalError` before any
service call is made; the bare `except: pass` swallows it, hence no abort
call appears in the trace in that case.  The abort call, when reached, is
issued regardless of `svc.abortResult` and its outcome is ignored. -/
def upload_file_multipart (svc : S3Responses) (data : List Nat) :
    Bool × List S3Call :=
  match svc.createResult with
  | .error _ => (false, [S3Call.createMultipartUpload])
  | .ok uploadId =>
    let r := uploadPartsLoop svc (readChunks chunk_size data) 1
    if r.2.2 then
      match svc.completeResult r.1 with
      | .ok _ =>
        (true, S3Call.createMultipartUpload :: r.2.1 ++
          [S3Call.completeMultipartUpload r.1])
      | .error _ =>
        (false, S3Call.createMultipartUpload :: r.2.1 ++
          [S3Call.completeMultipartUpload r.1, S3Call.abortMultipartUpload uploadId])
    else
      (false, S3Call.createMultipartUpload :: r.2.1 ++
        [S3Call.abortMultipartUpload uploadId])

/-- The unit list (B, KB, MB, GB) iterated by `format_file_size`. -/
def sizeUnits : List String := ["B", "KB", "MB", "GB"]

/-- The loop of `format_file_size`: return at the first unit where the
running value is below 1024, otherwise divide by 1024 and move to the next
unit; falling off the list yields `TB` unconditionally.  The returned pair
is (numeric value, unit); the Python then formats the value to two decimal
places, which we do not model. -/
def format_go : ℚ → List String → ℚ × String
  | size, [] => (size, "TB")
  | size, u :: rest =>
    if size < 1024 then (size, u) else format_go (size / 1024) rest

/-- Embedding of `format_file_size`: human-readable size. -/
def format_file_size (b : ℚ) : ℚ × String := format_go b sizeUnits

/-- The constant `multipart_threshold = 100 * 1024 * 1024` set in the
uploader constructor. -/
def multipart_threshold : Nat := 100 * 1024 * 1024

/-- Which branch of the size test in `upload_file` runs an attempt. -/
inductive UploadPath : Type where
  | multipart : UploadPath
  | simple : UploadPath
  deriving DecidableEq, Repr

/-- Outcome of one call of a strategy (`upload_file_multipart` /
`upload_file_simple`) as seen by the retry loop of `upload_file`: it returned
`True`, returned `False`, or raised an exception (only non-`ClientError`
exceptions escape the strategies; the `except Exception` of the loop catches
them). -/
inductive AttemptOutcome : Type where
  | succeeded : AttemptOutcome
  | failed : AttemptOutcome
  | raised : AttemptOutcome
  deriving DecidableEq, Repr

/-- Observable events of one `upload_file` invocation:
`getsize t s` records a `os.path.getsize` read at time `t` answering `s`;
`attempt n p o` records the retry iteration with loop index `n` running
path `p` with outcome `o`. -/
inductive DriverEvent : Type where
  | getsize (time : Nat) (result : Nat) : DriverEvent
  | attempt (index : Nat) (path : UploadPath) (outcome : AttemptOutcome) : DriverEvent
  deriving DecidableEq, Repr

/-- The path `upload_file` selects for a given stored file size. -/
def choosePath (file_size : Nat) : UploadPath :=
  if file_size > multipart_threshold then UploadPath.multipart else UploadPath.simple

/-- The `for attempt in range(max_retries)` loop of `upload_file`, iterating
over the remaining loop indices.  `strategy p n` is the outcome of running
path `p` on iteration `n`.  A `True` return exits with success; a `False`
return logs and continues; a raised exception is caught, and on the last
index (`attempt == max_retries - 1`) returns `False`; falling off the loop
returns `False`. -/
def retryGo (file_size : Nat) (strategy : UploadPath → Nat → AttemptOutcome)
    (max_retries : Nat) : List Nat → Bool × List DriverEvent
  | [] => (false, [])
  | attempt :: rest =>
    let p := choosePath file_size
    match strategy p attempt with
    | .succeeded => (true, [DriverEvent.attempt attempt p .succeeded])
    | .failed =>
      let r := retryGo file_size strategy max_retries rest
      (r.1, DriverEvent.attempt attempt p .failed :: r.2)
    | .raised =>
      if attempt = max_retries - 1 then
        (false, [DriverEvent.attempt attempt p .raised])
      else
        let r := retryGo file_size strategy max_retries rest
        (r.1, DriverEvent.attempt attempt p .raised :: r.2)

/-- Result of `upload_file`: boolean outcome, the key actually used
(`none` when the missing-file precondition returned early, before key
derivation), and the event trace. -/
structure UploadResult : Type where
  success : Bool
  usedKey : Option String
  events : List DriverEvent
  deriving DecidableEq, Repr

/-- Embedding of `upload_file`: return `False` at once when the source path does not
exist; otherwise derive the key from the basename when none was given, read
the file size once (time 0), and run the retry loop.  `sizeAt t` is the
size `os.path.getsize` would report at time `t`; the code only ever reads
it at time 0, before the first attempt. -/
def upload_file (pathExists : Bool) (basename : String) (key : Option String)
    (sizeAt : Nat → Nat) (strategy : UploadPath → Nat → AttemptOutcome)
    (max_retries : Nat) : UploadResult :=
  if pathExists = false then
    { success := false, usedKey := none, events := [] }
  else
    let k := key.getD basename
    let file_size := sizeAt 0
    let r := retryGo file_size strategy max_retries (List.range max_retries)
    { success := r.1, usedKey := some k,
      events := DriverEvent.getsize 0 file_size :: r.2 }

/-- The forward-slash path separator (code point 47). -/
def slashSep : Char := Char.ofNat 47

/-- The backslash path separator (code point 92). -/
def backslashSep : Char := Char.ofNat 92

/-- Replace every backslash by a forward slash: `.replace("\\", "/")` on a
one-character pattern, i.e. a character map over the string. -/
def normalizeSeps (s : String) : String :=
  ⟨s.data.map (fun c => if c = backslashSep then slashSep else c)⟩

/-- Model of `os.path.join(a, b)` for one separator `sep` and a non-drive path:
an absolute `b` wins; joining onto the empty string or onto a string
already ending in the separator appends directly; otherwise the separator
is inserted. -/
def osJoin (sep : Char) (a b : String) : String :=
  if b.data.head? = some sep then b
  else if a.data = [] then b
  else if a.data.getLast? = some sep then a ++ b
  else a ++ String.singleton sep ++ b

/-- Model of `os.path.relpath(file_path, folder_path)` for a file at relative
component path `cs` under the root: the components joined by the platform
separator. -/
def relPath (sep : Char) : List String → String
  | [] => ""
  | [x] => x
  | x :: xs => x ++ String.singleton sep ++ relPath sep xs

/-- Embedding of `upload_folder_recursive`: for each regular file under the root (given
by its relative path components, in traversal order), compute the submitted
target key `os.path.join(prefix, relative_path).replace("\\", "/")`.  The
returned list is the sequence of keys submitted to `upload_file`. -/
def upload_folder_recursive (sep : Char) (pre : String)
    (files : List (List String)) : List String :=
  files.map (fun cs => normalizeSeps (osJoin sep pre (relPath sep cs)))

/-! Observation helpers used to state properties about traces. -/

/-- The path of an attempt event, `none` for a `getsize` event. -/
def attemptPath? : DriverEvent → Option UploadPath
  | .attempt _ p _ => some p
  | _ => none

/-- Whether an event is a `getsize` read. -/
def isGetsize : DriverEvent → Bool
  | .getsize _ _ => true
  | _ => false

/-- Number of strategy invocations recorded in a trace. -/
def countAttempts (evs : List DriverEvent) : Nat :=
  (evs.filter (fun e => (attemptPath? e).isSome)).length

/-- Whether a service call is an `abort_multipart_upload`. -/
def isAbortCall : S3Call → Bool
  | .abortMultipartUpload _ => true
  | _ => false

/-- The unit reached after `k` divisions by 1024 in `format_file_size`. -/
def unitName : Nat → String
  | 0 => "B"
  | 1 => "KB"
  | 2 => "MB"
  | 3 => "GB"
  | _ => "TB"

/-- A path component as produced by a directory walk: non-empty and free of
the platform separator and of backslashes. -/
@[reducible] def goodName (sep : Char) (s : String) : Prop :=
  s.data ≠ [] ∧ sep ∉ s.data ∧ backslashSep ∉ s.data

/-- A usable key stem: non-empty, backslash-free, not ending in the
platform separator. -/
@[reducible] def goodPre (sep : Char) (s : String) : Prop :=
  s.data ≠ [] ∧ backslashSep ∉ s.data ∧ s.data.getLast? ≠ some sep

/-! Concrete fixtures used by witness theorems. -/

/-- A service that answers every call normally. -/
def svcAllOk : S3Responses where
  putResult := .ok ()
  createResult := .ok r"UID-1"
  partResult := fun n => .ok (toString n)
  completeResult := fun _ => .ok ()
  abortResult := .ok ()

/-- A service whose `create_multipart_upload` raises. -/
def svcCreateFail : S3Responses :=
  { svcAllOk with createResult := .error r"initiation failed" }

/-- A service whose `complete_multipart_upload` raises. -/
def svcCompleteFail : S3Responses :=
  { svcAllOk with completeResult := fun _ => .error r"completion failed" }

/-- A service whose `put_object` raises. -/
def svcPutFail : S3Responses :=
  { svcAllOk with putResult := .error r"put failed" }

/-- A strategy that fails on every attempt. -/
def stratFail : UploadPath → Nat → AttemptOutcome := fun _ _ => .failed

/-- A strategy that fails on the 1st attempt and succeeds on the 2nd. -/
def stratSecond : UploadPath → Nat → AttemptOutcome :=
  fun _ i => if i = 1 then .succeeded else .failed

/-- Walked files of the two-file example tree: `a.txt` and `sub/b.txt`. -/
def exampleTree : List (List String) := [["a.txt"], ["sub", "b.txt"]]

/-- The example key stem. -/
def examplePre : String := "backup"


/-! Size formatter (claim C7). -/

/-- C7: `format_file_size` repeatedly divides by 1024 through the unit
sequence B, KB, MB, GB, TB, stops at the first unit where the scaled value
is below 1024 (falling through to TB after four divisions), returns the
scaled value with that unit, and the numeric part lies in `[0, 1024)`
except when the unit is TB. -/
theorem format_file_size_spec (b : ℚ) (hb : 0 ≤ b) :
    ∃ k : Nat, k ≤ 4 ∧
      format_file_size b = (b / 1024 ^ k, unitName k) ∧
      (∀ j < k, 1024 ≤ b / 1024 ^ j) ∧
      (k < 4 → b / 1024 ^ k < 1024) ∧
      0 ≤ b / 1024 ^ k := by
  have e0 : b / 1024 ^ 0 = b := by norm_num
  have e1 : b / 1024 ^ 1 = b / 1024 := by norm_num
  have e2 : b / 1024 ^ 2 = b / 1024 / 1024 := by
    rw [div_div]; norm_num
  have e3 : b / 1024 ^ 3 = b / 1024 / 1024 / 1024 := by
    rw [div_div, div_div]; norm_num
  have e4 : b / 1024 ^ 4 = b / 1024 / 1024 / 1024 / 1024 := by
    rw [div_div, div_div, div_div]; norm_num
  by_cases h0 : b < 1024
  · refine ⟨0, by norm_num, ?_, ?_, ?_, ?_⟩
    · simp [format_file_size, sizeUnits, format_go, h0, unitName, e0]
    · intro j hj; omega
    · intro _; rw [e0]; exact h0
    · rw [e0]; exact hb
  · by_cases h1 : b / 1024 < 1024
    · refine ⟨1, by norm_num, ?_, ?_, ?_, ?_⟩
      · simp [format_file_size, sizeUnits, format_go, h0, h1, unitName, e1]
      · intro j hj
        interval_cases j
        rw [e0]; exact not_lt.mp h0
      · intro _; rw [e1]; exact h1
      · rw [e1]; exact div_nonneg hb (by norm_num)
    · by_cases h2 : b / 1024 / 1024 < 1024
      · refine ⟨2, by norm_num, ?_, ?_, ?_, ?_⟩
        · simp [format_file_size, sizeUnits, format_go, h0, h1, h2, unitName, e2]
        · intro j hj
          interval_cases j
          · rw [e0]; exact not_lt.mp h0
          · rw [e1]; exact not_lt.mp h1
        · intro _; rw [e2]; exact h2
        · rw [e2]; exact div_nonneg (div_nonneg hb (by norm_num)) (by norm_num)
      · by_cases h3 : b / 1024 / 1024 / 1024 < 1024
        · refine ⟨3, by norm_num, ?_, ?_, ?_, ?_⟩
          · simp [format_file_size, sizeUnits, format_go, h0, h1, h2, h3,
              unitName, e3]
          · intro j hj
            interval_cases j
            · rw [e0]; exact not_lt.mp h0
            · rw [e1]; exact not_lt.mp h1
            · rw [e2]; exact not_lt.mp h2
          · intro _; rw [e3]; exact h3
          · rw [e3]
            exact div_nonneg (div_nonneg (div_nonneg hb (by norm_num))
              (by norm_num)) (by norm_num)
        · refine ⟨4, le_refl 4, ?_, ?_, ?_, ?_⟩
          · simp [format_file_size, sizeUnits, format_go, h0, h1, h2, h3,
              unitName, e4]
          · intro j hj
            interval_cases j
            · rw [e0]; exact not_lt.mp h0
            · rw [e1]; exact not_lt.mp h1
            · rw [e2]; exact not_lt.mp h2
            · rw [e3]; exact not_lt.mp h3
          · intro h; exact absurd h (by norm_num)
          · rw [e4]
            exact div_nonneg (div_nonneg (div_nonneg (div_nonneg hb
              (by norm_num)) (by norm_num)) (by norm_num)) (by norm_num)

/-- Witness for C7 at 2048 bytes. -/
theorem format_file_size_spec_witness :
    (0 : ℚ) ≤ 2048 ∧
      ∃ k : Nat, k ≤ 4 ∧
        format_file_size 2048 = ((2048 : ℚ) / 1024 ^ k, unitName k) ∧
        (∀ j < k, 1024 ≤ (2048 : ℚ) / 1024 ^ j) ∧
        (k < 4 → (2048 : ℚ) / 1024 ^ k < 1024) ∧
        0 ≤ (2048 : ℚ) / 1024 ^ k :=
  ⟨by norm_num, format_file_size_spec 2048 (by norm_num)⟩

/-! Single-request path (claim C5). -/

/-- C5: a transport/service error raised by the put call is caught inside
the single-request path, which returns boolean failure (after its single
put call) instead of propagating the error. -/
theorem simple_upload_catches (svc : S3Responses) (err : ClientError)
    (h : svc.putResult = .error err) :
    upload_file_simple svc = (false, [S3Call.putObject]) := by
  unfold upload_file_simple
  rw [h]

/-- Witness for C5: a put that raises yields boolean failure. -/
theorem simple_upload_catches_witness :
    upload_file_simple svcPutFail = (false, [S3Call.putObject]) :=
  simple_upload_catches svcPutFail _ rfl

/-! Retry driver (claims C2, C3, C6, C9, C10). -/

/-- Unfolding of the retry loop body (one iteration of the `for`). -/
theorem retryGo_cons (fs : Nat) (strat : UploadPath → Nat → AttemptOutcome)
    (m a : Nat) (rest : List Nat) :
    retryGo fs strat m (a :: rest) =
      match strat (choosePath fs) a with
      | .succeeded => (true, [DriverEvent.attempt a (choosePath fs) .succeeded])
      | .failed =>
        ((retryGo fs strat m rest).1,
          DriverEvent.attempt a (choosePath fs) .failed ::
            (retryGo fs strat m rest).2)
      | .raised =>
        if a = m - 1 then
          (false, [DriverEvent.attempt a (choosePath fs) .raised])
        else
          ((retryGo fs strat m rest).1,
            DriverEvent.attempt a (choosePath fs) .raised ::
              (retryGo fs strat m rest).2) := rfl

/-- Unfolding of `upload_file` when the source file exists. -/
theorem upload_file_exists (basename : String) (key : Option String)
    (sizeAt : Nat → Nat) (strategy : UploadPath → Nat → AttemptOutcome)
    (m : Nat) :
    upload_file true basename key sizeAt strategy m =
      { success := (retryGo (sizeAt 0) strategy m (List.range m)).1,
        usedKey := some (key.getD basename),
        events := DriverEvent.getsize 0 (sizeAt 0) ::
          (retryGo (sizeAt 0) strategy m (List.range m)).2 } := rfl

/-- Every event the retry loop emits is an attempt on the path chosen from
the size that was read before the loop. -/
theorem retryGo_events (fs : Nat) (strat : UploadPath → Nat → AttemptOutcome)
    (m : Nat) :
    ∀ l : List Nat, ∀ e ∈ (retryGo fs strat m l).2,
      ∃ n o, e = DriverEvent.attempt n (choosePath fs) o := by
  intro l
  induction l with
  | nil => intro e he; simp [retryGo] at he
  | cons a rest ih =>
    intro e he
    rw [retryGo_cons] at he
    cases hso : strat (choosePath fs) a with
    | succeeded =>
      rw [hso] at he
      simp only [List.mem_singleton] at he
      exact ⟨a, .succeeded, he⟩
    | failed =>
      rw [hso] at he
      rcases List.mem_cons.mp he with rfl | hmem
      · exact ⟨a, .failed, rfl⟩
      · exact ih e hmem
    | raised =>
      rw [hso] at he
      by_cases hlast : a = m - 1
      · rw [if_pos hlast] at he
        simp only [List.mem_singleton] at he
        exact ⟨a, .raised, he⟩
      · rw [if_neg hlast] at he
        rcases List.mem_cons.mp he with rfl | hmem
        · exact ⟨a, .raised, rfl⟩
        · exact ih e hmem

/-- Counting helper: an attempt event counts. -/
theorem countAttempts_cons_attempt (n : Nat) (p : UploadPath)
    (o : AttemptOutcome) (evs : List DriverEvent) :
    countAttempts (DriverEvent.attempt n p o :: evs) = countAttempts evs + 1 := by
  simp [countAttempts, attemptPath?]

/-- Counting helper: a getsize event does not count. -/
theorem countAttempts_cons_getsize (t s : Nat) (evs : List DriverEvent) :
    countAttempts (DriverEvent.getsize t s :: evs) = countAttempts evs := by
  simp [countAttempts, attemptPath?]

/-- When no iteration in the remaining index range succeeds, the loop runs
every remaining iteration and ends in failure. -/
theorem retryGo_all_fail (fs : Nat) (strat : UploadPath → Nat → AttemptOutcome)
    (m : Nat) (hall : ∀ i < m, strat (choosePath fs) i ≠ .succeeded) :
    ∀ k s : Nat, s + k = m →
      (retryGo fs strat m (List.range' s k)).1 = false ∧
      countAttempts (retryGo fs strat m (List.range' s k)).2 = k := by
  intro k
  induction k with
  | zero => intro s _; simp [List.range', retryGo, countAttempts]
  | succ k ih =>
    intro s hs
    rw [List.range'_succ, retryGo_cons]
    have hsm : s < m := by omega
    cases hso : strat (choosePath fs) s with
    | succeeded => exact absurd hso (hall s hsm)
    | failed =>
      have hr := ih (s + 1) (by omega)
      simpa [countAttempts_cons_attempt, hr.1] using hr.2
    | raised =>
      by_cases hlast : s = m - 1
      · have hk : k = 0 := by omega
        subst hk
        rw [if_pos hlast]
        simp [countAttempts, attemptPath?]
      · rw [if_neg hlast]
        have hr := ih (s + 1) (by omega)
        simpa [countAttempts_cons_attempt, hr.1] using hr.2

/-- When iteration `kk` is the first to succeed, the loop stops there with
success, having run `kk - s + 1` of the remaining iterations. -/
theorem retryGo_first_success (fs : Nat)
    (strat : UploadPath → Nat → AttemptOutcome) (m kk : Nat) (hkm : kk < m)
    (hbefore : ∀ i < kk, strat (choosePath fs) i ≠ .succeeded)
    (hsucc : strat (choosePath fs) kk = .succeeded) :
    ∀ j s : Nat, s + j = m → s ≤ kk →
      (retryGo fs strat m (List.range' s j)).1 = true ∧
      countAttempts (retryGo fs strat m (List.range' s j)).2 = kk - s + 1 := by
  intro j
  induction j with
  | zero => intro s hs hsk; exact absurd hkm (by omega)
  | succ j ih =>
    intro s hs hsk
    rw [List.range'_succ, retryGo_cons]
    rcases eq_or_lt_of_le hsk with rfl | hlt
    · rw [hsucc]
      simp [countAttempts, attemptPath?]
    · have hne := hbefore s hlt
      cases hso : strat (choosePath fs) s with
      | succeeded => exact absurd hso hne
      | failed =>
        have hr := ih (s + 1) (by omega) (by omega)
        refine ⟨by simpa using hr.1, ?_⟩
        rw [countAttempts_cons_attempt, hr.2]
        omega
      | raised =>
        have hlast : s ≠ m - 1 := by omega
        rw [if_neg hlast]
        have hr := ih (s + 1) (by omega) (by omega)
        refine ⟨by simpa using hr.1, ?_⟩
        rw [countAttempts_cons_attempt, hr.2]
        omega

/-- The loop never runs more iterations than remain in its index list. -/
theorem retryGo_count_le (fs : Nat) (strat : UploadPath → Nat → AttemptOutcome)
    (m : Nat) :
    ∀ l : List Nat, countAttempts (retryGo fs strat m l).2 ≤ l.length := by
  intro l
  induction l with
  | nil => simp [retryGo, countAttempts]
  | cons a rest ih =>
    rw [retryGo_cons]
    cases strat (choosePath fs) a with
    | succeeded => simp [countAttempts, attemptPath?]
    | failed =>
      rw [countAttempts_cons_attempt]
      simpa using Nat.succ_le_succ ih
    | raised =>
      by_cases hlast : a = m - 1
      · rw [if_pos hlast]
        simp [countAttempts, attemptPath?]
      · rw [if_neg hlast, countAttempts_cons_attempt]
        simpa using Nat.succ_le_succ ih

/-- Every attempt of one `upload_file` invocation runs the path chosen from
the single size read at time 0. -/
theorem upload_file_attempt_path (basename : String) (key : Option String)
    (sizeAt : Nat → Nat) (strategy : UploadPath → Nat → AttemptOutcome)
    (m n : Nat) (p : UploadPath) (o : AttemptOutcome)
    (h : DriverEvent.attempt n p o ∈
      (upload_file true basename key sizeAt strategy m).events) :
    p = choosePath (sizeAt 0) := by
  rw [upload_file_exists] at h
  rcases List.mem_cons.mp h with heq | hmem
  · exact absurd heq (by simp)
  · obtain ⟨n', o', he⟩ :=
      retryGo_events (sizeAt 0) strategy m (List.range m) _ hmem
    rw [DriverEvent.attempt.injEq] at he
    exact he.2.1

/-- C2: for an upload of an existing file, the multipart path is selected
on an attempt if and only if the size read for the file is strictly
greater than 104,857,600 bytes. -/
theorem upload_path_selection (basename : String) (key : Option String)
    (sizeAt : Nat → Nat) (strategy : UploadPath → Nat → AttemptOutcome)
    (m n : Nat) (p : UploadPath) (o : AttemptOutcome)
    (h : DriverEvent.attempt n p o ∈
      (upload_file true basename key sizeAt strategy m).events) :
    p = UploadPath.multipart ↔ sizeAt 0 > 104857600 := by
  have hp := upload_file_attempt_path basename key sizeAt strategy m n p o h
  have hth : multipart_threshold = 104857600 := by norm_num [multipart_threshold]
  rw [hp]
  unfold choosePath
  rw [hth]
  by_cases hgt : sizeAt 0 > 104857600
  · rw [if_pos hgt]
    simp [hgt]
  · rw [if_neg hgt]
    simp [hgt]

/-- Witness for C2 at both sides of the boundary: 104,857,601 bytes takes
the multipart path, 104,857,600 bytes the simple path. -/
theorem upload_path_selection_witness :
    (DriverEvent.attempt 0 UploadPath.multipart AttemptOutcome.failed ∈
      (upload_file true examplePre none (fun _ => 104857601) stratFail 1).events) ∧
    (DriverEvent.attempt 0 UploadPath.simple AttemptOutcome.failed ∈
      (upload_file true examplePre none (fun _ => 104857600) stratFail 1).events) ∧
    (UploadPath.multipart = UploadPath.multipart ↔ 104857601 > 104857600) ∧
    (UploadPath.simple = UploadPath.multipart ↔ 104857600 > 104857600) :=
  ⟨by decide, by decide,
    upload_path_selection examplePre none (fun _ => 104857601) stratFail 1 0
      UploadPath.multipart AttemptOutcome.failed (by decide),
    upload_path_selection examplePre none (fun _ => 104857600) stratFail 1 0
      UploadPath.simple AttemptOutcome.failed (by decide)⟩

/-- C3: for an existing file, if no attempt among the `max_retries` loop
indices succeeds, the driver makes exactly `max_retries` attempts and
fails; if index `k` is the first to succeed, it makes exactly `k + 1`
attempts and succeeds; and it never makes more than `max_retries`
attempts. -/
theorem retry_attempts_spec (basename : String) (key : Option String)
    (sizeAt : Nat → Nat) (strategy : UploadPath → Nat → AttemptOutcome)
    (m : Nat) :
    ((∀ i < m, strategy (choosePath (sizeAt 0)) i ≠ .succeeded) →
      (upload_file true basename key sizeAt strategy m).success = false ∧
      countAttempts (upload_file true basename key sizeAt strategy m).events = m) ∧
    (∀ k, k < m → (∀ i < k, strategy (choosePath (sizeAt 0)) i ≠ .succeeded) →
      strategy (choosePath (sizeAt 0)) k = .succeeded →
      (upload_file true basename key sizeAt strategy m).success = true ∧
      countAttempts (upload_file true basename key sizeAt strategy m).events
        = k + 1) ∧
    countAttempts (upload_file true basename key sizeAt strategy m).events ≤ m := by
  refine ⟨?_, ?_, ?_⟩
  · intro hall
    have hr := retryGo_all_fail (sizeAt 0) strategy m hall m 0 (Nat.zero_add m)
    rw [← List.range_eq_range'] at hr
    refine ⟨hr.1, ?_⟩
    show countAttempts (DriverEvent.getsize 0 (sizeAt 0) ::
      (retryGo (sizeAt 0) strategy m (List.range m)).2) = m
    rw [countAttempts_cons_getsize]
    exact hr.2
  · intro k hk hbefore hsucc
    have hr := retryGo_first_success (sizeAt 0) strategy m k hk hbefore hsucc
      m 0 (Nat.zero_add m) (Nat.zero_le k)
    rw [← List.range_eq_range'] at hr
    refine ⟨hr.1, ?_⟩
    show countAttempts (DriverEvent.getsize 0 (sizeAt 0) ::
      (retryGo (sizeAt 0) strategy m (List.range m)).2) = k + 1
    rw [countAttempts_cons_getsize, hr.2]
    omega
  · have hr := retryGo_count_le (sizeAt 0) strategy m (List.range m)
    show countAttempts (DriverEvent.getsize 0 (sizeAt 0) ::
      (retryGo (sizeAt 0) strategy m (List.range m)).2) ≤ m
    rw [countAttempts_cons_getsize]
    simpa using hr

/-- Witness for C3 with `max_retries = 3`: an always-failing strategy gives
exactly 3 attempts and failure; failing once then succeeding gives exactly
2 attempts and success. -/
theorem retry_attempts_spec_witness :
    ((upload_file true examplePre none (fun _ => 5) stratFail 3).success = false ∧
      countAttempts
        (upload_file true examplePre none (fun _ => 5) stratFail 3).events = 3) ∧
    ((upload_file true examplePre none (fun _ => 5) stratSecond 3).success = true ∧
      countAttempts
        (upload_file true examplePre none (fun _ => 5) stratSecond 3).events = 2) :=
  ⟨(retry_attempts_spec examplePre none (fun _ => 5) stratFail 3).1 (by decide),
    (retry_attempts_spec examplePre none (fun _ => 5) stratSecond 3).2.1 1
      (by decide) (by decide) (by decide)⟩

/-- C6: on a non-existent source path, `upload_file` fails immediately:
no key is derived, no size is read and no attempt (hence no storage call)
is made. -/
theorem missing_file_short_circuits (basename : String) (key : Option String)
    (sizeAt : Nat → Nat) (strategy : UploadPath → Nat → AttemptOutcome)
    (m : Nat) :
    upload_file false basename key sizeAt strategy m =
      { success := false, usedKey := none, events := [] } := rfl

/-- C9: with `max_retries = 0` on an existing file, the loop body never
runs: the driver reads the size, makes zero attempts and returns failure. -/
theorem zero_retries_fails (basename : String) (key : Option String)
    (sizeAt : Nat → Nat) (strategy : UploadPath → Nat → AttemptOutcome) :
    (upload_file true basename key sizeAt strategy 0).success = false ∧
    countAttempts (upload_file true basename key sizeAt strategy 0).events = 0 ∧
    (upload_file true basename key sizeAt strategy 0).events =
      [DriverEvent.getsize 0 (sizeAt 0)] :=
  ⟨rfl, rfl, rfl⟩

/-- C10: one `upload_file` invocation reads the file size exactly once,
before the first attempt (the getsize event heads the trace), and every
attempt runs the path chosen from that single read, whatever the
filesystem would report at later times. -/
theorem size_read_once (basename : String) (key : Option String)
    (sizeAt : Nat → Nat) (strategy : UploadPath → Nat → AttemptOutcome)
    (m : Nat) :
    ((upload_file true basename key sizeAt strategy m).events.filter isGetsize) =
      [DriverEvent.getsize 0 (sizeAt 0)] ∧
    (upload_file true basename key sizeAt strategy m).events.head? =
      some (DriverEvent.getsize 0 (sizeAt 0)) ∧
    (∀ n p o, DriverEvent.attempt n p o ∈
        (upload_file true basename key sizeAt strategy m).events →
      p = choosePath (sizeAt 0)) := by
  refine ⟨?_, rfl, ?_⟩
  · show (DriverEvent.getsize 0 (sizeAt 0) ::
      (retryGo (sizeAt 0) strategy m (List.range m)).2).filter isGetsize =
      [DriverEvent.getsize 0 (sizeAt 0)]
    rw [List.filter_cons_of_pos (by rfl)]
    have hnil : (retryGo (sizeAt 0) strategy m (List.range m)).2.filter
        isGetsize = [] := by
      rw [List.filter_eq_nil_iff]
      intro e he
      obtain ⟨n, o, rfl⟩ := retryGo_events (sizeAt 0) strategy m
        (List.range m) e he
      simp [isGetsize]
    rw [hnil]
  · intro n p o hmem
    exact upload_file_attempt_path basename key sizeAt strategy m n p o hmem

/-- Witness for C10: with a filesystem whose reported size changes after
time 0, the trace still holds a single size read, at time 0, heading the
trace, and an attempt running the path chosen from the time-0 size. -/
theorem size_read_once_witness :
    ((upload_file true examplePre none
        (fun t => if t = 0 then 104857601 else 5) stratFail 2).events.filter
      isGetsize) = [DriverEvent.getsize 0 104857601] ∧
    (upload_file true examplePre none
        (fun t => if t = 0 then 104857601 else 5) stratFail 2).events.head? =
      some (DriverEvent.getsize 0 104857601) ∧
    UploadPath.multipart = choosePath 104857601 :=
  ⟨((size_read_once examplePre none
      (fun t => if t = 0 then 104857601 else 5) stratFail 2).1),
    ((size_read_once examplePre none
      (fun t => if t = 0 then 104857601 else 5) stratFail 2).2.1),
    ((size_read_once examplePre none
      (fun t => if t = 0 then 104857601 else 5) stratFail 2).2.2 1
      UploadPath.multipart AttemptOutcome.failed (by decide))⟩

/-! Multipart chunking (claims C1, C4). -/

/-- Reading chunks of the empty file yields no chunks. -/
theorem readChunks_nil (C : Nat) : readChunks C [] = [] := by
  rw [readChunks]
  simp

/-- Unfolding of `readChunks` on a non-empty file and positive chunk size. -/
theorem readChunks_cons (C : Nat) (hC : C ≠ 0) (data : List Nat)
    (hd : data ≠ []) :
    readChunks C data = data.take C :: readChunks C (data.drop C) := by
  rw [readChunks]
  simp [hC, hd]

/-- The number of chunks is the ceiling of `length / C`. -/
theorem readChunks_length (C : Nat) (hC : 0 < C) (data : List Nat) :
    (readChunks C data).length = (data.length + C - 1) / C := by
  generalize hn : data.length = n
  induction n using Nat.strong_induction_on generalizing data with
  | _ n ih =>
    rcases eq_or_ne data [] with rfl | hd
    · rw [readChunks_nil]
      simp at hn
      rw [← hn]
      exact (Nat.div_eq_of_lt (by omega)).symm
    · rw [readChunks_cons C (Nat.pos_iff_ne_zero.mp hC) data hd]
      have hlen : 0 < n := by
        rw [← hn]
        exact List.length_pos.mpr hd
      have hdrop : (data.drop C).length = n - C := by
        rw [List.length_drop, hn]
      rw [List.length_cons, ih (n - C) (by omega) (data.drop C) hdrop]
      rcases Nat.le_total C n with hle | hlt
      · have h1 : n - C + C - 1 = n - 1 := by omega
        have h2 : n + C - 1 = (n - 1) + C := by omega
        rw [h1, h2, Nat.add_div_right _ hC]
      · have h1 : n - C = 0 := by omega
        rw [h1]
        have h2 : (0 + C - 1) / C = 0 := Nat.div_eq_of_lt (by omega)
        have h3 : n + C - 1 = (n - 1) + C := by omega
        rw [h2, h3, Nat.add_div_right _ hC, Nat.div_eq_of_lt (by omega)]

/-- Concatenating the chunks restores the file byte-for-byte. -/
theorem readChunks_flatten (C : Nat) (hC : 0 < C) (data : List Nat) :
    (readChunks C data).flatten = data := by
  generalize hn : data.length = n
  induction n using Nat.strong_induction_on generalizing data with
  | _ n ih =>
    rcases eq_or_ne data [] with rfl | hd
    · rw [readChunks_nil]; rfl
    · rw [readChunks_cons C (Nat.pos_iff_ne_zero.mp hC) data hd]
      have hlen : 0 < n := by
        rw [← hn]
        exact List.length_pos.mpr hd
      have hdrop : (data.drop C).length = n - C := by
        rw [List.length_drop, hn]
      rw [List.flatten_cons, ih (n - C) (by omega) (data.drop C) hdrop]
      exact List.take_append_drop C data

/-- No chunk exceeds the configured chunk size. -/
theorem readChunks_le (C : Nat) (data : List Nat) :
    ∀ c ∈ readChunks C data, c.length ≤ C := by
  generalize hn : data.length = n
  induction n using Nat.strong_induction_on generalizing data with
  | _ n ih =>
    intro c hc
    rcases eq_or_ne data [] with rfl | hd
    · rw [readChunks_nil] at hc
      simp at hc
    · rcases eq_or_ne C 0 with rfl | hC
      · rw [readChunks] at hc
        simp at hc
      · rw [readChunks_cons C hC data hd] at hc
        have hlen : 0 < n := by
          rw [← hn]
          exact List.length_pos.mpr hd
        have hdrop : (data.drop C).length = n - C := by
          rw [List.length_drop, hn]
        rcases List.mem_cons.mp hc with rfl | hmem
        · simp
        · exact ih (n - C) (by omega) (data.drop C) hdrop c hmem

/-- When every part call answers normally, the part loop uploads one part
per chunk with contiguous part numbers from its starting number, recording
each returned tag with its number, in order. -/
theorem uploadPartsLoop_ok (svc : S3Responses) (etagOf : Nat → String)
    (hp : ∀ i, svc.partResult i = .ok (etagOf i)) :
    ∀ (chunks : List (List Nat)) (s : Nat),
      uploadPartsLoop svc chunks s =
        ((List.range' s chunks.length).map (fun i => (etagOf i, i)),
          (List.range' s chunks.length).map S3Call.uploadPart,
          true) := by
  intro chunks
  induction chunks with
  | nil => intro s; simp [uploadPartsLoop]
  | cons c rest ih =>
    intro s
    rw [List.length_cons, List.range'_succ]
    simp only [uploadPartsLoop, hp s, ih (s + 1), List.map_cons]

/-- C1: with chunk size C = 52,428,800 and a service that answers normally,
the multipart upload issues exactly `⌈N / C⌉` upload-part calls numbered
contiguously 1, 2, ..., `⌈N / C⌉` in that order, records each returned tag
with its part number, and the single completion call receives exactly that
part list in ascending part-number order; the chunks partition the file
with every chunk at most C bytes (only the last may be shorter). -/
theorem multipart_parts_spec (svc : S3Responses) (data : List Nat)
    (uid : String) (etagOf : Nat → String) (n : Nat)
    (hc : svc.createResult = .ok uid)
    (hp : ∀ i, svc.partResult i = .ok (etagOf i))
    (hcomp : ∀ ps, svc.completeResult ps = .ok ())
    (hn : n = (data.length + chunk_size - 1) / chunk_size) :
    upload_file_multipart svc data =
      (true, S3Call.createMultipartUpload ::
        (List.range' 1 n).map S3Call.uploadPart ++
        [S3Call.completeMultipartUpload
          ((List.range' 1 n).map (fun i => (etagOf i, i)))]) ∧
    (∀ c ∈ readChunks chunk_size data, c.length ≤ chunk_size) ∧
    (readChunks chunk_size data).flatten = data := by
  have hCpos : 0 < chunk_size := by norm_num [chunk_size]
  have hlen : (readChunks chunk_size data).length = n := by
    rw [readChunks_length chunk_size hCpos data, hn]
  refine ⟨?_, readChunks_le chunk_size data,
    readChunks_flatten chunk_size hCpos data⟩
  simp only [upload_file_multipart, hc]
  rw [uploadPartsLoop_ok svc etagOf hp (readChunks chunk_size data) 1, hlen]
  simp [hcomp]

/-- Witness for C1 on the empty file: zero parts, completion receives the
empty part list. -/
theorem multipart_parts_spec_witness :
    upload_file_multipart svcAllOk [] =
      (true, [S3Call.createMultipartUpload,
        S3Call.completeMultipartUpload []]) := by
  have h := (multipart_parts_spec svcAllOk [] _ (fun i => toString i) 0
    rfl (fun i => rfl) (fun ps => rfl) (by decide)).1
  simpa using h

/-- Every call the part loop makes is an upload-part call: it issues no
abort and no completion itself. -/
theorem uploadPartsLoop_calls (svc : S3Responses) :
    ∀ (chunks : List (List Nat)) (s : Nat),
      ∀ call ∈ (uploadPartsLoop svc chunks s).2.1,
        ∃ i, call = S3Call.uploadPart i := by
  intro chunks
  induction chunks with
  | nil => intro s call hcall; simp [uploadPartsLoop] at hcall
  | cons c rest ih =>
    intro s call hcall
    simp only [uploadPartsLoop] at hcall
    cases hso : svc.partResult s with
    | error err =>
      rw [hso] at hcall
      simp only [List.mem_singleton] at hcall
      exact ⟨s, hcall⟩
    | ok etag =>
      rw [hso] at hcall
      rcases List.mem_cons.mp hcall with rfl | hmem
      · exact ⟨s, rfl⟩
      · exact ih (s + 1) call hmem

/-- The part loop ignores the abort oracle. -/
theorem uploadPartsLoop_abort_irrel (svc : S3Responses)
    (ab : Except ClientError Unit) :
    ∀ (chunks : List (List Nat)) (s : Nat),
      uploadPartsLoop { svc with abortResult := ab } chunks s =
        uploadPartsLoop svc chunks s := by
  intro chunks
  induction chunks with
  | nil => intro s; rfl
  | cons c rest ih =>
    intro s
    simp only [uploadPartsLoop]
    cases hso : svc.partResult s with
    | error err => rfl
    | ok etag => rw [ih (s + 1)]

/-- C4 counterexample: when the error occurs during session initiation,
the uploader issues no abort call at all (the abort attempt trips over the
never-assigned `upload_id` before reaching the service), contradicting the
claim that every multipart error leads to exactly one abort call
referencing the session identifier. -/
theorem multipart_abort_counterexample :
    upload_file_multipart svcCreateFail [] =
      (false, [S3Call.createMultipartUpload]) ∧
    ((upload_file_multipart svcCreateFail []).2.filter isAbortCall) = [] :=
  ⟨rfl, rfl⟩


/-- C4 amended: when the multipart session was initiated (a session
identifier exists) and an error occurs afterwards — during a chunk upload
or the completion call — the uploader issues exactly one abort call, it
references the session identifier from initiation, it is the last service
call (so no completion call is issued after the error), and the operation
reports failure; a successful upload issues no abort; when initiation
itself fails, no abort call reaches the service and the operation reports
failure; and the outcome of the abort call itself never changes the
behaviour (an abort failure is swallowed without replacing the original
error). -/
theorem multipart_abort_amended (svc : S3Responses) (data : List Nat) :
    (∀ uid, svc.createResult = .ok uid →
      (upload_file_multipart svc data).1 = false →
        ((upload_file_multipart svc data).2.filter isAbortCall) =
          [S3Call.abortMultipartUpload uid] ∧
        (upload_file_multipart svc data).2.getLast? =
          some (S3Call.abortMultipartUpload uid)) ∧
    (∀ uid, svc.createResult = .ok uid →
      (upload_file_multipart svc data).1 = true →
        ((upload_file_multipart svc data).2.filter isAbortCall) = []) ∧
    (∀ err, svc.createResult = .error err →
      upload_file_multipart svc data = (false, [S3Call.createMultipartUpload])) ∧
    (∀ ab, upload_file_multipart { svc with abortResult := ab } data =
      upload_file_multipart svc data) := by
  have hcalls := uploadPartsLoop_calls svc (readChunks chunk_size data) 1
  have hfilterCalls :
      (uploadPartsLoop svc (readChunks chunk_size data) 1).2.1.filter
        isAbortCall = [] := by
    rw [List.filter_eq_nil_iff]
    intro c hcm
    obtain ⟨i, rfl⟩ := hcalls c hcm
    simp [isAbortCall]
  refine ⟨?_, ?_, ?_, ?_⟩
  · intro uid hc hfail
    rcases huP : uploadPartsLoop svc (readChunks chunk_size data) 1 with
      ⟨parts, calls, flag⟩
    rw [huP] at hfilterCalls
    have hfc : List.filter isAbortCall calls = [] := hfilterCalls
    cases flag with
    | true =>
      cases hcr : svc.completeResult parts with
      | ok u => simp [upload_file_multipart, hc, huP, hcr] at hfail
      | error err =>
        simp only [upload_file_multipart, hc, huP, hcr] at hfail ⊢
        simp only [if_pos trivial]
        refine ⟨by simp [isAbortCall, hfc], ?_⟩
        rw [show [S3Call.completeMultipartUpload parts,
            S3Call.abortMultipartUpload uid] =
          [S3Call.completeMultipartUpload parts] ++
            [S3Call.abortMultipartUpload uid] from rfl,
          ← List.append_assoc, List.getLast?_concat]
    | false =>
      simp only [upload_file_multipart, hc, huP] at hfail ⊢
      simp only [Bool.false_eq_true, if_neg not_false]
      exact ⟨by simp [isAbortCall, hfc], List.getLast?_concat _⟩
  · intro uid hc hok
    rcases huP : uploadPartsLoop svc (readChunks chunk_size data) 1 with
      ⟨parts, calls, flag⟩
    rw [huP] at hfilterCalls
    have hfc : List.filter isAbortCall calls = [] := hfilterCalls
    cases flag with
    | true =>
      cases hcr : svc.completeResult parts with
      | ok u =>
        simp only [upload_file_multipart, hc, huP, hcr] at hok ⊢
        simp only [if_pos trivial]
        simp [isAbortCall, hfc]
      | error err => simp [upload_file_multipart, hc, huP, hcr] at hok
    | false => simp [upload_file_multipart, hc, huP] at hok
  · intro err herr
    simp only [upload_file_multipart, herr]
  · intro ab
    simp only [upload_file_multipart,
      uploadPartsLoop_abort_irrel svc ab (readChunks chunk_size data) 1]

/-- Witness for C4 amended: a failing completion call on the empty file
leads to exactly one trailing abort call referencing the initiated
session. -/
theorem multipart_abort_amended_witness :
    ((upload_file_multipart svcCompleteFail []).2.filter isAbortCall) =
      [S3Call.abortMultipartUpload r"UID-1"] ∧
    (upload_file_multipart svcCompleteFail []).2.getLast? =
      some (S3Call.abortMultipartUpload r"UID-1") := by
  have hfail : (upload_file_multipart svcCompleteFail []).1 = false := by
    simp [upload_file_multipart, readChunks_nil, uploadPartsLoop,
      svcCompleteFail, svcAllOk]
  exact (multipart_abort_amended svcCompleteFail []).1 _ rfl hfail

/-! Folder walk key computation (claim C8). -/

/-- The backslash-to-slash character map fixes separator-free strings. -/
theorem mapSep_eq_self (l : List Char) (h : backslashSep ∉ l) :
    l.map (fun c => if c = backslashSep then slashSep else c) = l := by
  induction l with
  | nil => rfl
  | cons c cs ih =>
    simp only [List.mem_cons, not_or] at h
    rw [List.map_cons, if_neg (fun hc => h.1 hc.symm), ih h.2]

/-- The map `normalizeSeps` distributes over append. -/
theorem normalizeSeps_append (a b : String) :
    normalizeSeps (a ++ b) = normalizeSeps a ++ normalizeSeps b := by
  unfold normalizeSeps
  rw [String.data_append, List.map_append]
  rfl

/-- The map `normalizeSeps` fixes a backslash-free string. -/
theorem normalizeSeps_id (s : String) (h : backslashSep ∉ s.data) :
    normalizeSeps s = s := by
  unfold normalizeSeps
  rw [mapSep_eq_self s.data h]

/-- The map `normalizeSeps` sends either platform separator to the slash. -/
theorem normalizeSeps_sep (sep : Char)
    (hsep : sep = slashSep ∨ sep = backslashSep) :
    normalizeSeps (String.singleton sep) = String.singleton slashSep := by
  rcases hsep with rfl | rfl <;> decide

/-- The relative path of a good component list starts with the first
character of its first component, hence not with the separator. -/
theorem relPath_head_ne (sep : Char) (cs : List String) (hne : cs ≠ [])
    (hnames : ∀ name ∈ cs, goodName sep name) :
    (relPath sep cs).data.head? ≠ some sep := by
  rcases cs with _ | ⟨x, xs⟩
  · exact absurd rfl hne
  · have hx := hnames x (List.mem_cons_self x xs)
    obtain ⟨c, cs', hxd⟩ := List.exists_cons_of_ne_nil hx.1
    have hcx : c ∈ x.data := by rw [hxd]; exact List.mem_cons_self c cs'
    have hcs : c ≠ sep := fun hceq => hx.2.1 (hceq ▸ hcx)
    rcases xs with _ | ⟨y, ys⟩
    · simp only [relPath, hxd, List.head?_cons]
      intro hs
      exact hcs (Option.some.inj hs)
    · simp only [relPath, String.data_append, hxd, List.cons_append,
        List.head?_cons]
      intro hs
      exact hcs (Option.some.inj hs)

/-- Under the conditions of the walk, `os.path.join` inserts the separator. -/
theorem osJoin_eq (sep : Char) (a b : String)
    (ha : goodPre sep a) (hb : b.data.head? ≠ some sep) :
    osJoin sep a b = a ++ String.singleton sep ++ b := by
  unfold osJoin
  rw [if_neg hb, if_neg ha.1, if_neg ha.2.2]

/-- Normalizing the relative path of good components rebuilds it with
slashes. -/
theorem normalizeSeps_relPath (sep : Char)
    (hsep : sep = slashSep ∨ sep = backslashSep) (cs : List String)
    (hnames : ∀ name ∈ cs, goodName sep name) :
    normalizeSeps (relPath sep cs) = relPath slashSep cs := by
  induction cs with
  | nil => simp only [relPath]; rfl
  | cons x xs ih =>
    rcases xs with _ | ⟨y, ys⟩
    · simp only [relPath]
      exact normalizeSeps_id x (hnames x (List.mem_cons_self x [])).2.2
    · simp only [relPath]
      rw [normalizeSeps_append, normalizeSeps_append,
        normalizeSeps_id x (hnames x (List.mem_cons_self x (y :: ys))).2.2,
        normalizeSeps_sep sep hsep,
        ih (fun name hn => hnames name (List.mem_cons_of_mem x hn))]

/-- C8: for every file visited by the recursive folder walk, the submitted
target key is the prefix joined with the relative path of the file, with
platform separators (slash or backslash) normalized to forward slashes. -/
theorem folder_keys_spec (sep : Char)
    (hsep : sep = slashSep ∨ sep = backslashSep)
    (P : String) (hP : goodPre sep P) (files : List (List String))
    (hf : ∀ cs ∈ files, cs ≠ [] ∧ ∀ name ∈ cs, goodName sep name) :
    upload_folder_recursive sep P files =
      files.map (fun cs =>
        P ++ String.singleton slashSep ++ relPath slashSep cs) := by
  unfold upload_folder_recursive
  apply List.map_congr_left
  intro cs hcs
  obtain ⟨hne, hnames⟩ := hf cs hcs
  rw [osJoin_eq sep P (relPath sep cs) hP
      (relPath_head_ne sep cs hne hnames),
    normalizeSeps_append, normalizeSeps_append,
    normalizeSeps_id P hP.2.1, normalizeSeps_sep sep hsep,
    normalizeSeps_relPath sep hsep cs hnames]

/-- Witness for C8: the two-file tree with prefix `backup` yields keys
`backup/a.txt` and `backup/sub/b.txt` under either platform separator. -/
theorem folder_keys_spec_witness :
    upload_folder_recursive slashSep examplePre exampleTree =
      ["backup/a.txt", "backup/sub/b.txt"] ∧
    upload_folder_recursive backslashSep examplePre exampleTree =
      ["backup/a.txt", "backup/sub/b.txt"] := by
  constructor
  · rw [folder_keys_spec slashSep (Or.inl rfl) examplePre (by decide)
      exampleTree (by decide)]
    decide
  · rw [folder_keys_spec backslashSep (Or.inr rfl) examplePre (by decide)
      exampleTree (by decide)]
    decide
